import Mathlib

/-!
Verification of the asyncirc connection/event engine (asyncirc/irc.py).

Strings from the Python source are modelled as lists of characters
(Python slicing, `in`, `index`, `split`, `strip`, `join` all operate on
code points, which `List Char` captures exactly).  Byte decoding and
encoding are modelled as the identity on code points; the engine treats
the stream as text immediately after decoding, and no claim depends on
the byte-level representation.
-/

namespace AsyncIrc

/-- Abbreviation used everywhere: a Python string as its list of code points. -/
abbrev Str := List Char

/-- Shorthand turning a Lean string literal into the model type. -/
def str (s : String) : Str := s.toList

/-- Characters treated as whitespace by Python `str.strip()` (ASCII range). -/
def pyIsSpace (c : Char) : Bool :=
  c = ' ' || c = '\t' || c = '\n' || c = '\r' || c = '\x0b' || c = '\x0c'

/-- Python `s.strip()`: remove leading and trailing whitespace. -/
def pyStrip (l : Str) : Str :=
  ((l.dropWhile pyIsSpace).reverse.dropWhile pyIsSpace).reverse

/-- Python `s.rstrip()`: remove trailing whitespace only.  Used to state the
claim that the framer trims only trailing whitespace (the code in fact uses
`strip()`, which also trims leading whitespace). -/
def pyRstrip (l : Str) : Str :=
  (l.reverse.dropWhile pyIsSpace).reverse

/-- Python `s.split(sep, maxsplit=1)` specialised to a one-character
separator: the part before the first occurrence of `sep`, and, when `sep`
occurs, the part after it (`none` when `sep` does not occur, in which case
Python returns the one-element list `[s]`). -/
def splitOnce (sep : Char) : Str → Str × Option Str
  | [] => ([], none)
  | c :: rest =>
    if c = sep then ([], some rest)
    else
      let r := splitOnce sep rest
      (c :: r.1, r.2)

/-- The `User` value produced by `User.from_hostmask` in the source:
`nick` and `user` are optional, `host` always present. -/
structure UserV where
  nick : Option Str
  user : Option Str
  host : Str
deriving DecidableEq, Repr

/-- `User.from_hostmask` (irc.py lines 31-37).  The Python code tests
`"!" in hostmask and "@" in hostmask`, then runs
`nick, userhost = hostmask.split("!", maxsplit=1)` and
`user, host = userhost.split("@", maxsplit=1)`.  The second unpacking
raises `ValueError` when `userhost` contains no `"@"` (every `"@"` of the
input precedes the first `"!"`); that exceptional outcome is modelled as
`none`. -/
def from_hostmask (hostmask : Str) : Option UserV :=
  if '!' ∈ hostmask ∧ '@' ∈ hostmask then
    match splitOnce '!' hostmask with
    | (nick, some userhost) =>
      match splitOnce '@' userhost with
      | (user, some host) => some ⟨some nick, some user, host⟩
      | (_, none) => none
    | (_, none) => none
  else some ⟨none, none, hostmask⟩

/-- `load_plugins` (irc.py lines 18-21).  The parameter tuple is also named
`plugins`, shadowing the module-level list, so `plugin not in plugins`
tests membership in the argument tuple itself.  The result is the pair
(modules actually imported, module-level plugin list after the call);
each import would append to the module-level list via the
`plugin-registered` signal, so the second component appends the imported
modules. -/
def load_plugins (args : List Str) (module_plugins : List Str) :
    List Str × List Str :=
  let imported := args.filter (fun plugin => !args.contains plugin)
  (imported, module_plugins ++ imported)

/-- The keyword dictionary stored as `protocol.server_info` by `connect`
(irc.py line 171): host, port and the TLS flag. -/
structure ServerInfo where
  host : Str
  port : Nat
  ssl : Bool
deriving DecidableEq, Repr

/-- The attributes of an `IRCProtocol` instance relevant to reconnection.
`connection_made` initialises the protocol without a `server_info`
attribute; only the `connect` entry point assigns it afterwards, so the
field is optional. -/
structure Protocol where
  server_info : Option ServerInfo
deriving DecidableEq, Repr

/-- `IRCProtocolWrapper`: holds a reference to exactly one protocol at a
time; attribute access falls through to the wrapped protocol. -/
structure Wrapper where
  protocol : Protocol
deriving DecidableEq, Repr

/-- `connect` (irc.py lines 167-172): create a protocol over a new
transport, wrap it, and store the connection parameters on the protocol
as `server_info`. -/
def connect (server : Str) (port : Nat := 6697) (use_ssl : Bool := true) :
    Wrapper :=
  { protocol := { server_info := some ⟨server, port, use_ssl⟩ } }

/-- `reconnect` (irc.py lines 174-178): read `server_info` through the
wrapper, open a new connection with those parameters, and repoint the
wrapper at the new protocol.  The new protocol is created by
`connection_made` alone, so its `server_info` attribute is never set.
When the current protocol has no `server_info`, the attribute lookup
falls into `IRCProtocol.__getattr__`, which returns a `_send_command`
closure; unpacking that with `**` raises `TypeError`, modelled as
`none`. -/
def reconnect (w : Wrapper) : Option Wrapper :=
  match w.protocol.server_info with
  | some _ => some { protocol := { server_info := none } }
  | none => none

/-- The inbound framing loop of `IRCProtocol.data_received`
(irc.py lines 79-85): while the buffer contains a newline, take the prefix
up to the first newline, `strip()` it, drop the consumed prefix including
the newline, and emit the stripped line as a `raw` event.  The result is
(emitted lines in order, remaining buffer). -/
def extractLines (buf : Str) : List Str × Str :=
  match h : buf.dropWhile (fun c => c != '\n') with
  | [] => ([], buf)
  | _ :: rest =>
    let r := extractLines rest
    (pyStrip (buf.takeWhile (fun c => c != '\n')) :: r.1, r.2)
termination_by buf.length
decreasing_by
  have hle : (buf.dropWhile (fun c => c != '\n')).length ≤ buf.length :=
    List.Sublist.length_le (List.dropWhile_sublist _)
  rw [h] at hle
  simp only [List.length_cons] at hle
  omega

/-- `IRCProtocol.data_received` (irc.py lines 76-85): append the decoded
data to the inbound buffer and run the framing loop.  Returns the `raw`
events emitted by this call and the new buffer. -/
def data_received (buf : Str) (data : Str) : List Str × Str :=
  extractLines (buf ++ data)

/-- Feed a sequence of chunks to `data_received`, accumulating the emitted
`raw` events and threading the inbound buffer. -/
def feedChunks : List Str × Str → List Str → List Str × Str
  | s, [] => s
  | (evs, buf), c :: cs =>
    let r := data_received buf c
    feedChunks (evs ++ r.1, r.2) cs

/-- Concatenation of terminator-delimited lines: each line followed by the
`\n` terminator. -/
def joinLines (lines : List Str) : Str :=
  (lines.map (fun l => l ++ ['\n'])).flatten

/-- The connection state touched by the outbound path and registration:
the outbound queue, the lines already written to the transport by the
drain timer, the emitted signals, and the nickname. -/
structure ConnState where
  queue : List Str := []
  sent : List Str := []
  events : List String := []
  nickname : Str := []
deriving DecidableEq, Repr

/-- `IRCProtocol.writeln` (irc.py lines 111-112): append the line to the
outbound queue; nothing is written to the transport. -/
def writeln (s : ConnState) (line : Str) : ConnState :=
  { s with queue := s.queue ++ [line] }

/-- `self.queue_timer = 1.5` (irc.py line 69): the fixed drain period. -/
def queue_timer : ℚ := 3 / 2

/-- `IRCProtocol.process_queue` (irc.py lines 93-96): if the queue is
non-empty, pop its front line and write it; in every case reschedule
itself after `queue_timer`.  The second component is the delay passed to
`loop.call_later`. -/
def process_queue (s : ConnState) : ConnState × ℚ :=
  match s.queue with
  | [] => (s, queue_timer)
  | l :: rest => ({ s with queue := rest, sent := s.sent ++ [l] }, queue_timer)

/-- Run `n` firings of the drain timer. -/
def drainN (s : ConnState) : Nat → ConnState
  | 0 => s
  | n + 1 => drainN (process_queue s).1 n

/-- The `_send_command` closure produced by `IRCProtocol.__getattr__`
(irc.py lines 143-152): join all arguments but the last with spaces,
append a space, a colon and the last argument, prefix the upper-cased
attribute name and a space, and enqueue the line via `writeln`.  With an
empty argument list, Python `args[-1]` raises `IndexError`, modelled as
`none`. -/
def send_command (st : ConnState) (attr : Str) (args : List Str) :
    Option ConnState :=
  match args.getLast? with
  | none => none
  | some last =>
    let argstr := (List.intercalate (str " ") args.dropLast) ++ str " :" ++ last
    some (writeln st (attr.map Char.toUpper ++ str " " ++ argstr))

/-- `IRCProtocol.register` (irc.py lines 114-120): when the password is
truthy (present and non-empty), enqueue the PASS line first; then
enqueue the USER and NICK lines, emit `registration-complete`, and set
the nickname optimistically. -/
def register (s : ConnState) (nick user realname : Str)
    (mode : Str := str "+i") (password : Option Str := none) : ConnState :=
  let s1 := match password with
    | some p => if p = [] then s else writeln s (str "PASS " ++ p)
    | none => s
  let s2 := writeln s1
    (str "USER " ++ user ++ str " " ++ mode ++ str " " ++ user
      ++ str " :" ++ realname)
  let s3 := writeln s2 (str "NICK " ++ nick)
  { s3 with events := s3.events ++ ["registration-complete"],
            nickname := nick }

/-- The PRIVMSG line built by one iteration of `IRCProtocol.say`. -/
def sayLine (target chunk : Str) : Str :=
  str "PRIVMSG " ++ target ++ str " :" ++ chunk

/-- The successive at-most-400-character chunks taken by the loop of
`IRCProtocol.say`: `message[:400]` then the chunks of `message[400:]`,
stopping when the message is exhausted. -/
def say_chunks (msg : Str) : List Str :=
  if h : msg = [] then []
  else msg.take 400 :: say_chunks (msg.drop 400)
termination_by msg.length
decreasing_by
  have : 0 < msg.length := List.length_pos.2 h
  simp only [List.length_drop]
  omega

/-- `IRCProtocol.say` (irc.py lines 136-139): while the message is
non-empty, enqueue `PRIVMSG <target> :<first 400 chars>` and continue
with the rest.  Stated on the queue directly since only `writeln` is
invoked. -/
def say (q : List Str) (target msg : Str) : List Str :=
  if h : msg = [] then q
  else say (q ++ [sayLine target (msg.take 400)]) target (msg.drop 400)
termination_by msg.length
decreasing_by
  have : 0 < msg.length := List.length_pos.2 h
  simp only [List.length_drop]
  omega

/-- A Python value that is either text or bytes, as accepted by
`IRCProtocol._writeln`. -/
inductive PyData where
  | text (s : Str)
  | bytes (b : Str)
deriving DecidableEq, Repr

/-- Python `str.encode()` / the bytes already held: both are modelled as
the underlying code points (UTF-8 decoding and encoding are mutually
inverse and no claim depends on the byte representation). -/
def encode : PyData → Str
  | .text s => s
  | .bytes b => b

/-- Python `bytes.decode()` under the same identification. -/
def decodeBytes (b : Str) : Str := b

/-- The observable effects of the low-level write path: the byte strings
handed to the transport socket and the emitted signals with their text
payloads. -/
structure WriteState where
  transport_sent : List Str := []
  events : List (String × Str) := []
deriving DecidableEq, Repr

/-- `IRCProtocol._writeln` (irc.py lines 105-109): encode the line if it
is not already bytes, append the `\r\n` terminator, send the result on
the transport socket, and emit `irc-send` carrying the decoded line. -/
def _writeln (s : WriteState) (line : PyData) : WriteState :=
  let b := encode line
  { transport_sent := s.transport_sent ++ [b ++ ['\r', '\n']],
    events := s.events ++ [("irc-send", decodeBytes b)] }

end AsyncIrc

namespace AsyncIrc

/-- Every element of the argument list defeats the membership guard of
`load_plugins`, so the filter keeps nothing. -/
lemma load_plugins_filter_nil (args : List Str) :
    args.filter (fun plugin => !args.contains plugin) = [] := by
  rw [List.filter_eq_nil_iff]
  intro a ha
  simp [List.contains, List.elem_eq_mem, ha]

/-- C9: `load_plugins` never imports a module: its membership guard tests
each requested plugin against the own argument tuple of the function, which
always contains it, so the import branch is unreachable and the
module-level plugin list is left unchanged. -/
theorem C9_load_plugins_noop (args : List Str) (module_plugins : List Str) :
    load_plugins args module_plugins = ([], module_plugins) := by
  unfold load_plugins
  rw [load_plugins_filter_nil]
  simp

/-- A buffer without a newline is left untouched by the framing loop. -/
lemma extractLines_of_not_mem (buf : Str) (h : '\n' ∉ buf) :
    extractLines buf = ([], buf) := by
  have hd : buf.dropWhile (fun c => c != '\n') = [] := by
    rw [List.dropWhile_eq_nil_iff]
    intro x hx
    simp only [bne_iff_ne, ne_eq]
    rintro rfl
    exact h hx
  rw [extractLines]
  split
  · rfl
  · rename_i head rest heq
    rw [hd] at heq
    simp at heq

/-- The first element left by `dropWhile` falsifies the predicate. -/
lemma dropWhile_head_false {α : Type} {p : α → Bool} {l : List α} {a : α}
    {t : List α} (h : l.dropWhile p = a :: t) : p a = false := by
  induction l with
  | nil => simp [List.dropWhile] at h
  | cons x xs ih =>
    rw [List.dropWhile_cons] at h
    split at h
    · exact ih h
    · rename_i hpx
      injection h with h1 h2
      subst h1
      simpa using hpx

/-- Unfolding equation of `extractLines` in the recursive case, phrased on
the `dropWhile` result. -/
lemma extractLines_eq_cons (buf : Str) (head : Char) (rest : Str)
    (h : buf.dropWhile (fun c => c != '\n') = head :: rest) :
    extractLines buf
      = (pyStrip (buf.takeWhile (fun c => c != '\n')) :: (extractLines rest).1,
         (extractLines rest).2) := by
  rw [extractLines]
  split
  · rename_i heq
    rw [h] at heq
    simp at heq
  · rename_i head2 rest2 heq
    rw [h] at heq
    injection heq with h1 h2
    subst h2
    rfl

/-- The framing loop extracts a leading newline-free line followed by its
terminator, strips it, and continues on the rest. -/
lemma extractLines_cons (pre t : Str) (h : '\n' ∉ pre) :
    extractLines (pre ++ '\n' :: t)
      = (pyStrip pre :: (extractLines t).1, (extractLines t).2) := by
  have hall : ∀ c ∈ pre, (fun c => c != '\n') c = true := by
    intro c hc
    simp only [bne_iff_ne, ne_eq]
    rintro rfl
    exact h hc
  have hd : (pre ++ '\n' :: t).dropWhile (fun c => c != '\n') = '\n' :: t := by
    rw [List.dropWhile_append_of_pos hall]
    simp
  have ht : (pre ++ '\n' :: t).takeWhile (fun c => c != '\n') = pre := by
    rw [List.takeWhile_append_of_pos hall]
    simp
  rw [extractLines_eq_cons _ '\n' t hd, ht]

/-- The buffer left over by the framing loop never contains a newline. -/
lemma extractLines_snd_not_mem (buf : Str) : '\n' ∉ (extractLines buf).2 := by
  induction buf using extractLines.induct with
  | case1 x hx =>
    have hmem : '\n' ∉ x := by
      intro hm
      have := List.dropWhile_eq_nil_iff.1 hx _ hm
      simp at this
    rw [extractLines_of_not_mem x hmem]
    exact hmem
  | case2 x head rest hx ih =>
    rw [extractLines_eq_cons x head rest hx]
    exact ih

/-- Compositionality of the framing loop over buffer concatenation: the
events of the whole are the events of the first part followed by the
events of (leftover of the first part, then the second part). -/
lemma extractLines_append (a b : Str) :
    extractLines (a ++ b)
      = ((extractLines a).1 ++ (extractLines ((extractLines a).2 ++ b)).1,
         (extractLines ((extractLines a).2 ++ b)).2) := by
  induction a using extractLines.induct with
  | case1 x hx =>
    have hmem : '\n' ∉ x := by
      intro hm
      have := List.dropWhile_eq_nil_iff.1 hx _ hm
      simp at this
    rw [extractLines_of_not_mem x hmem]
    simp
  | case2 x head rest hx ih =>
    have hhead : head = '\n' := by
      have h1 := dropWhile_head_false hx
      simpa using h1
    subst hhead
    have hpre : x = x.takeWhile (fun c => c != '\n') ++ '\n' :: rest := by
      conv_lhs => rw [← List.takeWhile_append_dropWhile (fun c => c != '\n') x]
      rw [hx]
    have hprenl : '\n' ∉ x.takeWhile (fun c => c != '\n') := by
      intro hm
      have := List.mem_takeWhile_imp hm
      simp at this
    have hsplit : x ++ b = x.takeWhile (fun c => c != '\n') ++ '\n' :: (rest ++ b) := by
      conv_lhs => rw [hpre]
      simp
    rw [extractLines_eq_cons x '\n' rest hx, hsplit,
      extractLines_cons _ _ hprenl, ih]
    simp

/-- Feeding the chunks one by one frames exactly the concatenation,
provided the starting buffer holds no complete line. -/
lemma feedChunks_eq (cs : List Str) : ∀ evs buf, '\n' ∉ buf →
    feedChunks (evs, buf) cs
      = (evs ++ (extractLines (buf ++ cs.flatten)).1,
         (extractLines (buf ++ cs.flatten)).2) := by
  induction cs with
  | nil =>
    intro evs buf h
    simp [feedChunks, extractLines_of_not_mem buf h]
  | cons c cs ih =>
    intro evs buf h
    show feedChunks (evs ++ (extractLines (buf ++ c)).1, (extractLines (buf ++ c)).2) cs = _
    rw [ih _ _ (extractLines_snd_not_mem _)]
    have hassoc : buf ++ (c :: cs).flatten = (buf ++ c) ++ cs.flatten := by
      simp
    rw [hassoc, extractLines_append (buf ++ c) cs.flatten]
    simp

/-- Framing a buffer made of newline-terminated, newline-free lines and a
newline-free remainder yields exactly the stripped lines and keeps the
remainder. -/
lemma extractLines_joinLines (lines : List Str) (R : Str)
    (hl : ∀ l ∈ lines, '\n' ∉ l) (hR : '\n' ∉ R) :
    extractLines (joinLines lines ++ R) = (lines.map pyStrip, R) := by
  induction lines with
  | nil =>
    simp [joinLines, extractLines_of_not_mem R hR]
  | cons l ls ih =>
    have hjoin : joinLines (l :: ls) ++ R = l ++ '\n' :: (joinLines ls ++ R) := by
      simp [joinLines]
    rw [hjoin, extractLines_cons _ _ (hl l (by simp))]
    rw [ih (fun x hx => hl x (by simp [hx]))]
    simp

/-- C1 (amended): for any sequence of chunks whose concatenation consists
of k newline-terminated lines followed by a newline-free remainder,
feeding the chunks in any split produces exactly the k lines, each
trimmed of BOTH leading and trailing whitespace (the code applies Python
`strip()`, not a trailing-only trim), in order, and leaves exactly the
remainder buffered. -/
theorem C1_framing_split_invariance (chunks lines : List Str) (R : Str)
    (hl : ∀ l ∈ lines, '\n' ∉ l) (hR : '\n' ∉ R)
    (hconcat : chunks.flatten = joinLines lines ++ R) :
    feedChunks ([], []) chunks = (lines.map pyStrip, R) := by
  rw [feedChunks_eq chunks [] [] (by simp)]
  simp only [List.nil_append]
  rw [hconcat, extractLines_joinLines lines R hl hR]

/-- C1 witness: two chunks holding two full lines and a partial remainder. -/
theorem C1_witness :
    feedChunks ([], []) [str "ab", str "c\nde\nf"]
      = ([str "abc", str "de"].map pyStrip, str "f") :=
  C1_framing_split_invariance [str "ab", str "c\nde\nf"]
    [str "abc", str "de"] (str "f") (by decide) (by decide) (by decide)

/-- C1 counterexample to the claim as stated: on the single chunk
consisting of a space, the line `hi` and the terminator, the code emits
`hi` (leading space removed by `strip()`), while the claim promises the
line with only trailing whitespace trimmed, which keeps the leading
space. -/
theorem C1_counterexample :
    feedChunks ([], []) [str " hi\n"] = ([str "hi"], [])
    ∧ pyRstrip (str " hi") = str " hi"
    ∧ str "hi" ≠ str " hi" := by
  refine ⟨?_, by decide, by decide⟩
  show feedChunks ([] ++ (extractLines ([] ++ str " hi\n")).1,
        (extractLines ([] ++ str " hi\n")).2) [] = ([str "hi"], [])
  have he : ([] : Str) ++ str " hi\n" = str " hi" ++ '\n' :: [] := by decide
  rw [he, extractLines_cons _ _ (by decide), extractLines_of_not_mem [] (by decide)]
  simp [feedChunks]
  decide

/-- Splitting on a character that does not occur returns the whole string
and no second part (Python returns the one-element list). -/
lemma splitOnce_of_not_mem (sep : Char) (s : Str) (h : sep ∉ s) :
    splitOnce sep s = (s, none) := by
  induction s with
  | nil => rfl
  | cons c rest ih =>
    have hc : ¬ c = sep := by
      rintro rfl
      exact h (by simp)
    simp [splitOnce, hc, ih (fun hm => h (by simp [hm]))]

/-- Splitting at the first occurrence of the separator. -/
lemma splitOnce_append (sep : Char) (a b : Str) (h : sep ∉ a) :
    splitOnce sep (a ++ sep :: b) = (a, some b) := by
  induction a with
  | nil => simp [splitOnce]
  | cons c rest ih =>
    have hc : ¬ c = sep := by
      rintro rfl
      exact h (by simp)
    simp [splitOnce, hc, ih (fun hm => h (by simp [hm]))]

/-- C6 (amended): when the input contains both separators and some `@`
follows the first `!`, `from_hostmask` splits on the first `!` and then
on the first `@` of the remainder; when `!` or `@` is missing it returns
the degenerate identity; but when every `@` precedes the first `!` the
two-element unpacking of the remainder fails (Python `ValueError`), so
the function is not total on the guarded branch. -/
theorem C6_from_hostmask :
    (∀ nick user host : Str, '!' ∉ nick → '@' ∉ user →
      from_hostmask (nick ++ '!' :: (user ++ '@' :: host))
        = some ⟨some nick, some user, host⟩)
    ∧ (∀ s : Str, ¬ ('!' ∈ s ∧ '@' ∈ s) →
      from_hostmask s = some ⟨none, none, s⟩)
    ∧ (∀ nick rest : Str, '!' ∉ nick → '@' ∈ nick → '@' ∉ rest →
      from_hostmask (nick ++ '!' :: rest) = none) := by
  refine ⟨?_, ?_, ?_⟩
  · intro nick user host h1 h2
    have hcond : '!' ∈ nick ++ '!' :: (user ++ '@' :: host)
        ∧ '@' ∈ nick ++ '!' :: (user ++ '@' :: host) := by
      constructor
      · simp
      · simp
    simp only [from_hostmask, if_pos hcond]
    simp [splitOnce_append, h1, h2]
  · intro s h3
    simp [from_hostmask, h3]
  · intro nick rest h1 h2 h3
    have hcond : '!' ∈ nick ++ '!' :: rest ∧ '@' ∈ nick ++ '!' :: rest := by
      constructor
      · simp
      · exact List.mem_append_left _ h2
    simp only [from_hostmask, if_pos hcond]
    simp [splitOnce_append, splitOnce_of_not_mem, h1, h3]

/-- C6 counterexample to totality as claimed: `a@b!c` contains both `!`
and `@`, yet the code fails on it (the remainder after the first `!`
holds no `@`, so the two-element unpack raises), instead of returning a
structured identity. -/
theorem C6_counterexample :
    ('!' ∈ str "a@b!c" ∧ '@' ∈ str "a@b!c")
    ∧ from_hostmask (str "a@b!c") = none := by
  constructor
  · decide
  · decide

/-- C6 witness: the two documented examples and the failing input. -/
theorem C6_witness :
    from_hostmask (str "nick!user@host.com")
      = some ⟨some (str "nick"), some (str "user"), str "host.com"⟩
    ∧ from_hostmask (str "irc.server.net")
      = some ⟨none, none, str "irc.server.net"⟩
    ∧ from_hostmask (str "a@b!c") = none := by
  refine ⟨?_, ?_, ?_⟩
  · have e : str "nick!user@host.com"
        = str "nick" ++ '!' :: (str "user" ++ '@' :: str "host.com") := by decide
    rw [e]
    exact C6_from_hostmask.1 (str "nick") (str "user") (str "host.com")
      (by decide) (by decide)
  · exact C6_from_hostmask.2.1 (str "irc.server.net") (by decide)
  · have e : str "a@b!c" = str "a@b" ++ '!' :: str "c" := by decide
    rw [e]
    exact C6_from_hostmask.2.2 (str "a@b") (str "c")
      (by decide) (by decide) (by decide)

/-- Folding `writeln` over a list of lines appends them all to the queue
and touches nothing else. -/
lemma foldl_writeln (L : List Str) : ∀ s : ConnState,
    L.foldl writeln s = { s with queue := s.queue ++ L } := by
  induction L with
  | nil =>
    intro s
    simp
  | cons l ls ih =>
    intro s
    rw [List.foldl_cons, ih]
    simp [writeln]

/-- Running the drain timer n times sends the first n queued lines in
order and removes them from the queue. -/
lemma drainN_eq (n : Nat) : ∀ (q sent : List Str) (events : List String)
    (nickname : Str),
    drainN ⟨q, sent, events, nickname⟩ n
      = ⟨q.drop n, sent ++ q.take n, events, nickname⟩ := by
  induction n with
  | zero =>
    intro q sent events nickname
    simp [drainN]
  | succ n ih =>
    intro q sent events nickname
    cases q with
    | nil => simp [drainN, process_queue, ih]
    | cons l rest => simp [drainN, process_queue, ih]

/-- C3: from a fresh connection, `writeln` calls L1..Ln only append to the
queue; after m timer firings exactly the first m of them have been
written, in order (so after n firings the transport has received exactly
L1..Ln); every firing reschedules itself with the same fixed period, and
a single firing pops at most the one front line of the queue. -/
theorem C3_fifo_drain (L : List Str) :
    (∀ m : Nat, drainN (L.foldl writeln {}) m
        = { queue := L.drop m, sent := L.take m, events := [], nickname := [] })
    ∧ (drainN (L.foldl writeln {}) L.length).sent = L
    ∧ (∀ (s : ConnState) (line : Str),
        writeln s line = { s with queue := s.queue ++ [line] })
    ∧ (∀ s : ConnState, (process_queue s).2 = queue_timer)
    ∧ (∀ s : ConnState,
        (process_queue s).1.sent = s.sent ++ s.queue.take 1
        ∧ (process_queue s).1.queue = s.queue.drop 1
        ∧ (process_queue s).1.events = s.events
        ∧ (process_queue s).1.nickname = s.nickname) := by
  have hfold : L.foldl writeln {}
      = (⟨L, [], [], []⟩ : ConnState) := by
    rw [foldl_writeln]
    simp
  refine ⟨?_, ?_, ?_, ?_, ?_⟩
  · intro m
    rw [hfold, drainN_eq]
    simp
  · rw [hfold, drainN_eq]
    simp
  · intro s line
    rfl
  · intro s
    cases hq : s.queue <;> simp [process_queue, hq]
  · intro s
    cases hq : s.queue <;> simp [process_queue, hq]

/-- C4: the generic `__getattr__` fallback with at least two arguments
enqueues exactly one line: the upper-cased command name, a space, the
space-join of all arguments but the last, then a space, a colon and the
last argument.  In particular `mode("#chan", "+o", "alice")` enqueues
exactly `MODE #chan +o :alice`. -/
theorem C4_generic_fallback_format (st : ConnState) (attr a last : Str)
    (mid : List Str) :
    send_command st attr (a :: mid ++ [last])
      = some { st with queue := st.queue
          ++ [attr.map Char.toUpper ++ str " "
              ++ List.intercalate (str " ") (a :: mid) ++ str " :" ++ last] }
    ∧ send_command {} (str "mode") [str "#chan", str "+o", str "alice"]
      = some { queue := [str "MODE #chan +o :alice"] } := by
  constructor
  · have h1 : (a :: mid ++ [last]).getLast? = some last :=
      List.getLast?_concat _
    have h2 : (a :: mid ++ [last]).dropLast = a :: mid :=
      List.dropLast_concat
    simp only [send_command, h1, h2, writeln]
    simp [List.append_assoc]
  · decide

/-- C10: the generic fallback called with exactly one argument joins the
empty leading-argument list to the empty string but still inserts both
separator spaces, producing the upper-cased command name, two consecutive
spaces, a colon and the argument; `nick("newnick")` enqueues
`NICK  :newnick`. -/
theorem C10_single_arg_fallback (st : ConnState) (attr a : Str) :
    send_command st attr [a]
      = some { st with queue := st.queue
          ++ [attr.map Char.toUpper ++ str "  :" ++ a] }
    ∧ send_command {} (str "nick") [str "newnick"]
      = some { queue := [str "NICK  :newnick"] } := by
  constructor
  · have key : str " " ++ (List.intercalate (str " ") (List.dropLast [a])
        ++ (str " :" ++ a)) = str "  :" ++ a := rfl
    simp only [send_command, List.getLast?_singleton, writeln]
    simp only [List.append_assoc]
    rw [key]
  · decide

/-- The chunks taken by the `say` loop concatenate back to the message:
successive substrings in order, nothing dropped. -/
lemma say_chunks_flatten (msg : Str) : (say_chunks msg).flatten = msg := by
  induction msg using say_chunks.induct with
  | case1 => simp [say_chunks]
  | case2 x hx ih =>
    rw [say_chunks, dif_neg hx]
    simp [ih]

/-- Every chunk taken by the `say` loop has at most 400 characters. -/
lemma say_chunks_length_le (msg : Str) :
    ∀ c ∈ say_chunks msg, c.length ≤ 400 := by
  induction msg using say_chunks.induct with
  | case1 => simp [say_chunks]
  | case2 x hx ih =>
    rw [say_chunks, dif_neg hx]
    intro c hc
    rcases List.mem_cons.1 hc with h | h
    · subst h
      exact List.length_take_le 400 x
    · exact ih c h

/-- The `say` loop enqueues exactly one PRIVMSG line per chunk, in chunk
order, after the existing queue contents. -/
lemma say_eq (q : List Str) (target msg : Str) :
    say q target msg = q ++ (say_chunks msg).map (sayLine target) := by
  induction q, target, msg using say.induct with
  | case1 q target =>
    rw [say, dif_pos rfl, say_chunks, dif_pos rfl]
    simp
  | case2 q target msg hx ih =>
    rw [say, dif_neg hx, ih]
    conv_rhs => rw [say_chunks, dif_neg hx]
    simp

/-- A message of exactly 950 characters is cut into chunks of lengths
400, 400 and 150. -/
lemma say_chunks_lengths_950 (msg : Str) (h : msg.length = 950) :
    (say_chunks msg).map List.length = [400, 400, 150] := by
  have h1 : msg ≠ [] := by
    intro e
    rw [e] at h
    simp at h
  have hd1 : (msg.drop 400).length = 550 := by
    simp [List.length_drop, h]
  have h2 : msg.drop 400 ≠ [] := by
    intro e
    rw [e] at hd1
    simp at hd1
  have hd2 : ((msg.drop 400).drop 400).length = 150 := by
    rw [List.length_drop, hd1]
  have h3 : (msg.drop 400).drop 400 ≠ [] := by
    intro e
    rw [e] at hd2
    simp at hd2
  have h4 : ((msg.drop 400).drop 400).drop 400 = [] := by
    have hlen : (((msg.drop 400).drop 400).drop 400).length = 0 := by
      rw [List.length_drop, hd2]
    exact List.eq_nil_of_length_eq_zero hlen
  rw [say_chunks, dif_neg h1, say_chunks, dif_neg h2, say_chunks, dif_neg h3,
    h4, say_chunks, dif_pos rfl]
  simp [List.length_take, h, hd1, hd2]

/-- C5: `say` enqueues one `PRIVMSG <target> :<chunk>` line per chunk of
the message, the chunks being its successive substrings of at most 400
characters in order; a 950-character message yields exactly 3 lines with
payload lengths 400, 400 and 150. -/
theorem C5_say_chunking (q : List Str) (target msg : Str) :
    say q target msg = q ++ (say_chunks msg).map (sayLine target)
    ∧ (say_chunks msg).flatten = msg
    ∧ (say_chunks msg).all (fun c => decide (c.length ≤ 400)) = true
    ∧ (msg.length = 950 →
        (say_chunks msg).map List.length = [400, 400, 150]) := by
  refine ⟨say_eq q target msg, say_chunks_flatten msg, ?_,
    say_chunks_lengths_950 msg⟩
  rw [List.all_eq_true]
  intro c hc
  simpa using say_chunks_length_le msg c hc

/-- C5 witness: a concrete 950-character message. -/
theorem C5_witness :
    (List.replicate 950 'a').length = 950
    ∧ (say_chunks (List.replicate 950 'a')).map List.length = [400, 400, 150]
    ∧ say [] (str "#chan") (List.replicate 950 'a')
      = [] ++ (say_chunks (List.replicate 950 'a')).map
          (sayLine (str "#chan")) :=
  ⟨List.length_replicate 950 'a',
   (C5_say_chunking [] (str "#chan") (List.replicate 950 'a')).2.2.2
     (List.length_replicate 950 'a'),
   (C5_say_chunking [] (str "#chan") (List.replicate 950 'a')).1⟩

/-- C7 (amended): `register` enqueues `PASS <password>` first exactly when
the password is present and non-empty (the code tests Python truthiness,
so an empty-string password enqueues no PASS line), then always the USER
and NICK lines in that order; it emits `registration-complete` and sets
the nickname immediately. -/
theorem C7_register (s : ConnState) (nick user realname mode : Str)
    (password : Option Str) :
    ((password = none ∨ password = some []) →
      register s nick user realname mode password
        = { s with
            queue := s.queue
              ++ [str "USER " ++ user ++ str " " ++ mode ++ str " " ++ user
                    ++ str " :" ++ realname,
                  str "NICK " ++ nick],
            events := s.events ++ ["registration-complete"],
            nickname := nick })
    ∧ (∀ p : Str, password = some p → p ≠ [] →
      register s nick user realname mode password
        = { s with
            queue := s.queue
              ++ [str "PASS " ++ p,
                  str "USER " ++ user ++ str " " ++ mode ++ str " " ++ user
                    ++ str " :" ++ realname,
                  str "NICK " ++ nick],
            events := s.events ++ ["registration-complete"],
            nickname := nick }) := by
  constructor
  · rintro (rfl | rfl) <;> simp [register, writeln]
  · rintro p rfl hp
    simp [register, writeln, hp]

/-- C7 witness: registration with a non-empty password and without one. -/
theorem C7_witness :
    register {} (str "n") (str "u") (str "r") (str "+i") (some (str "pw"))
      = { queue := [str "PASS pw", str "USER u +i u :r", str "NICK n"],
          sent := [], events := ["registration-complete"],
          nickname := str "n" }
    ∧ register {} (str "n") (str "u") (str "r") (str "+i") none
      = { queue := [str "USER u +i u :r", str "NICK n"],
          sent := [], events := ["registration-complete"],
          nickname := str "n" } := by
  constructor
  · exact ((C7_register {} (str "n") (str "u") (str "r") (str "+i")
      (some (str "pw"))).2 (str "pw") rfl (by decide)).trans (by decide)
  · exact ((C7_register {} (str "n") (str "u") (str "r") (str "+i")
      none).1 (Or.inl rfl)).trans (by decide)

/-- C7 counterexample to the claim as stated: with the given (but empty)
password `""`, the code enqueues no PASS line at all — the first enqueued
line is the USER line, not `PASS <password>`. -/
theorem C7_counterexample :
    (register {} (str "n") (str "u") (str "r") (str "+i") (some [])).queue
      = [str "USER u +i u :r", str "NICK n"]
    ∧ (register {} (str "n") (str "u") (str "r") (str "+i")
        (some [])).queue.head? ≠ some (str "PASS ") := by
  constructor
  · decide
  · decide

/-- C8: the low-level write path encodes the line when it is text, appends
the CRLF terminator, hands the result to the transport, and emits
`irc-send` carrying the decoded line as its text payload. -/
theorem C8_writeln_raw (s : WriteState) (line : PyData) :
    (_writeln s line).transport_sent
        = s.transport_sent ++ [encode line ++ ['\r', '\n']]
    ∧ (_writeln s line).events
        = s.events ++ [("irc-send", decodeBytes (encode line))]
    ∧ (∀ t : Str, decodeBytes (encode (.text t)) = t)
    ∧ (∀ b : Str, encode (.bytes b) = b) :=
  ⟨rfl, rfl, fun _ => rfl, fun _ => rfl⟩

/-- C2 evaluated at the failing input: after `connect` the stored
parameters are present, but the protocol produced by one reconnection
carries no `server_info` at all, so it does not hold the original
connection parameters, and a second reconnection attempt fails outright. -/
theorem C2_reconnect_loses_params :
    (connect (str "irc.example.com") 6697 true).protocol.server_info
        = some ⟨str "irc.example.com", 6697, true⟩
    ∧ reconnect (connect (str "irc.example.com") 6697 true)
        = some ⟨⟨none⟩⟩
    ∧ reconnect ⟨⟨none⟩⟩ = none := by
  refine ⟨rfl, rfl, rfl⟩

end AsyncIrc
